import Mathlib

/-!
Shallow embedding of the nfl-agents repository (agentic control layer):
the JSON-object extractor, the SQL safety gate, the SQL sub-agent loop,
the orchestrator loop, the name normalizer, and the web retrieval
pipeline (chunker, vector-store insert, top-k retrieval).

Python strings are modeled as `List Char`; Python `str.strip`, `str.lower`,
`startswith`, `endswith`, `in` (substring), `find`/`rfind` and slicing are
modeled explicitly below.  Fallible code returns `Except (List Char) α`.
External effects (the LLM oracle, the database) are modeled as explicit
oracle parameters.
-/

namespace NflAgents

/-! ### Python string primitives -/

/-- Whitespace per Python `str.strip` (the characters it strips). -/
def pyWs (c : Char) : Bool :=
  c = ' ' || c = '\t' || c = '\n' || c = '\r' || c = '\x0b' || c = '\x0c'

/-- Python `s.strip()`: drop leading and trailing whitespace. -/
def pyStrip (s : List Char) : List Char :=
  ((s.dropWhile pyWs).reverse.dropWhile pyWs).reverse

/-- Python `s.lower()` (ASCII case fold, which is all the code relies on). -/
def pyLower (s : List Char) : List Char := s.map Char.toLower

/-- Python `s.startswith(p)`. -/
def startsWith (p s : List Char) : Bool := p.isPrefixOf s

/-- Python `s.endswith(p)`. -/
def endsWith (p s : List Char) : Bool := p.reverse.isPrefixOf s.reverse

/-- Python `needle in hay` (substring containment). -/
def containsSubstr (needle : List Char) : List Char → Bool
  | [] => needle.isPrefixOf []
  | c :: rest => needle.isPrefixOf (c :: rest) || containsSubstr needle rest

/-- Python `s.find(c)` for a single character, as an `Option` index. -/
def findChar (c : Char) : List Char → Option Nat
  | [] => none
  | x :: rest =>
    if x = c then some 0
    else (findChar c rest).map (· + 1)

/-- Python `s.rfind(c)` for a single character, as an `Option` index. -/
def rfindChar (c : Char) (s : List Char) : Option Nat :=
  (findChar c s.reverse).map (fun i => s.length - 1 - i)

/-- Python slicing `s[l:r]` for nonnegative `l ≤ r` (clips at the length). -/
def pySlice (s : List Char) (l r : Nat) : List Char := (s.take r).drop l

/-! ### Structured-output extractor (`extract_json_object`, utils/llm_parsing.py
and backend/sql_agent.py — the two copies are textually identical) -/

/-- The opening/closing code-fence marker. -/
def fenceMark : List Char := "```".data

/-- Case-insensitive `startswith "json"`. -/
def startsWithJsonCI (s : List Char) : Bool :=
  startsWith "json".data (pyLower (s.take 4))

/-- Content strictly before the first occurrence of the fence marker, if any.
Models the lazy group `(.*?)` followed by the closing fence. -/
def beforeFence : List Char → Option (List Char)
  | [] => none
  | c :: rest =>
    if startsWith fenceMark (c :: rest) then some []
    else (beforeFence rest).map (c :: ·)

/-- Group 1 of the leftmost match of the regex pattern used in the code
(an opening fence, an optional case-insensitive language label `json`,
a lazy body, a closing fence), or `none` when the regex does not match. -/
def fenceGroup : List Char → Option (List Char)
  | [] => none
  | c :: rest =>
    if startsWith fenceMark (c :: rest) then
      let after := rest.drop 2
      match (if startsWithJsonCI after then beforeFence (after.drop 4) else none) with
      | some g => some g
      | none =>
        match beforeFence after with
        | some g => some g
        | none => fenceGroup rest
    else fenceGroup rest

/-- Embedding of `extract_json_object` (best-effort JSON-object substring). -/
def extract_json_object (raw : List Char) : List Char :=
  let s := pyStrip raw
  if startsWith "\x7b".data s && endsWith "\x7d".data s then s
  else
    let fromBraces :=
      match findChar '\x7b' s, rfindChar '\x7d' s with
      | some first, some last =>
        if first < last then pyStrip (pySlice s first (last + 1)) else s
      | _, _ => s
    match fenceGroup s with
    | some g =>
      let inner := pyStrip g
      if startsWith "\x7b".data inner && endsWith "\x7d".data inner then inner
      else fromBraces
    | none => fromBraces

/-! ### SQL safety gate (backend/sql_agent.py, `validate_sql_readonly`) -/

/-- The deny-listed mutating verbs, exactly as in the source. -/
def BANNED_SQL_KEYWORDS : List (List Char) :=
  ["insert".data, "update".data, "delete".data, "alter".data, "drop".data,
   "truncate".data, "create".data, "grant".data, "revoke".data, "merge".data,
   "call".data, "execute".data]

/-- Embedding of `validate_sql_readonly`: trim and case-fold, require a
SELECT/WITH start, then reject on any deny-listed substring. -/
def validate_sql_readonly (sql : List Char) : Except (List Char) Unit :=
  let s := pyLower (pyStrip sql)
  if startsWith "select".data s || startsWith "with".data s then
    match BANNED_SQL_KEYWORDS.find? (fun kw => containsSubstr kw s) with
    | some kw => .error ("Rejected SQL, banned keyword: ".data ++ kw)
    | none => .ok ()
  else .error "Rejected SQL, must be SELECT or WITH".data

/-! ### Web chunker (web-agent/web_agent_utils.py,
`process_text_into_chunks_with_embeddings`) -/

/-- Window size `C` (tokens). -/
def CHUNK_SIZE : Nat := 512

/-- Window overlap `O` (tokens). -/
def CHUNK_OVERLAP : Nat := 64

/-- The chunking `while` loop over token indices: each iteration emits the
token-index window `(start_idx, r_idx)` with
`r_idx = min end_idx (start_idx + CHUNK_SIZE - 1)`, stops when the window
reaches `end_idx`, and otherwise advances `start_idx` by
`CHUNK_SIZE - CHUNK_OVERLAP` (clamped at `end_idx`).  The loop is expressed
with a fuel argument; `endIdx + 1` fuel always suffices (the start index
strictly increases each iteration). -/
def chunkLoopF : Nat → Nat → Nat → List (Nat × Nat)
  | 0, _, _ => []
  | fuel + 1, endIdx, startIdx =>
    let rIdx := min endIdx (startIdx + (CHUNK_SIZE - 1))
    if rIdx = endIdx then [(startIdx, rIdx)]
    else (startIdx, rIdx) ::
      chunkLoopF fuel endIdx (min endIdx (startIdx + (CHUNK_SIZE - CHUNK_OVERLAP)))

/-- Token-index windows emitted by the chunking loop starting at index 0. -/
def chunkWindows (endIdx : Nat) : List (Nat × Nat) := chunkLoopF (endIdx + 1) endIdx 0

/-- Embedding of `process_text_into_chunks_with_embeddings` (the fetching,
printing and embedding-generation are external; the tokenizer is passed as an
oracle mapping a text to its token offset mapping, and the extracted text is
`none` when `trafilatura.extract` returns `None`).  A `none` text yields zero
chunks; a text whose offset mapping is empty makes `offsets[start_idx]` an
out-of-range access (Python `IndexError`), modeled as `.error`; otherwise each
window `(s, r)` materializes the character span
`text[offsets[s][0] : offsets[r][1]]` from the original text. -/
def process_text_into_chunks_with_embeddings
    (tokenize : List Char → List (Nat × Nat)) (text : Option (List Char)) :
    Except (List Char) (List (List Char)) :=
  match text with
  | none => .ok []
  | some t =>
    match tokenize t with
    | [] => .error "IndexError: list index out of range".data
    | _ :: _ =>
      let offsets := tokenize t
      .ok ((chunkWindows (offsets.length - 1)).map (fun p =>
        pySlice t (offsets.getD p.1 (0, 0)).1 (offsets.getD p.2 (0, 0)).2))

/-! ### Vector-store insert (web-agent/web_agent_utils.py,
`insert_embeddings_into_db`) -/

/-- Declared embedding dimension of the store. -/
def CHUNK_DIM : Nat := 384

/-- A stored row of the `web_chunks` table: `(url, chunk_index, chunk_text,
embedding)`.  The embedding is kept as its numeric vector (the pgvector text
rendering is a bijective formatting detail). -/
structure WebChunkRow where
  url : List Char
  chunk_index : Nat
  chunk_text : List Char
  embedding : List Int
  deriving Repr, DecidableEq

/-- Upsert one row keyed by `(url, chunk_index)`: `ON CONFLICT DO UPDATE`
replaces the text and embedding of the matching row, otherwise the row is
inserted. -/
def upsertRow (store : List WebChunkRow) (r : WebChunkRow) : List WebChunkRow :=
  if store.any (fun x => x.url = r.url && x.chunk_index = r.chunk_index) then
    store.map (fun x =>
      if x.url = r.url && x.chunk_index = r.chunk_index then r else x)
  else store ++ [r]

/-- Upsert a batch of rows in order (the single `execute_values` statement). -/
def upsertAll (store : List WebChunkRow) (records : List WebChunkRow) : List WebChunkRow :=
  records.foldl upsertRow store

/-- The records built by the insertion loop: `(url, idx, chunk_text, embedding)`
for each chunk, enumerated from 0. -/
def buildRecords (url : List Char) (chunks : List (List Char))
    (embeddings : List (List Int)) : List WebChunkRow :=
  (chunks.zip embeddings).enum.map (fun p =>
    WebChunkRow.mk url p.1 p.2.1 p.2.2)

/-- Embedding of `insert_embeddings_into_db` as a transition on the vector
store.  `fault` is the oracle for whether the database raises during the
`execute_values`/`commit` of the single transaction.  The result triple is
(outcome, new store state, connection-and-cursor-closed flag); the two
`assert` statements fire before any connection is opened, so the closed flag
is reported `true` on those paths as well (nothing was opened or left open). -/
def insert_embeddings_into_db (store : List WebChunkRow) (url : List Char)
    (chunks : List (List Char)) (embeddings : List (List Int)) (fault : Bool) :
    Except (List Char) Unit × List WebChunkRow × Bool :=
  if ¬ embeddings.all (fun e => e.length = CHUNK_DIM) then
    (.error "AssertionError: embedding dimension mismatch".data, store, true)
  else if chunks.length ≠ embeddings.length then
    (.error "AssertionError: chunks and embeddings length mismatch".data, store, true)
  else if fault then
    -- the except-branch: `conn.rollback()` discards the transaction, the
    -- exception is re-raised, and the `finally` closes cursor and connection
    (.error "Error inserting embeddings into DB".data, store, true)
  else
    -- the transaction commits: every record is upserted atomically
    (.ok (), upsertAll store (buildRecords url chunks embeddings), true)

/-! ### Top-k retrieval (web-agent/web_agent_utils.py, `retrieve_top_k_chunks`) -/

/-- A ranked chunk as returned by the distance queries:
`(url, chunk_index, chunk_text, distance)`.  Distances are modeled as
integers: only their linear order matters to the ranking logic. -/
structure RankedRow where
  url : List Char
  chunk_index : Nat
  chunk_text : List Char
  distance : Int
  deriving Repr, DecidableEq

/-- Comparison by distance, the sort key of both the SQL `ORDER BY distance`
and the Python-side `sorted(all_rows, key=lambda r: r[3])`. -/
def distLE (a b : RankedRow) : Prop := a.distance ≤ b.distance

instance : DecidableRel distLE := fun a b => inferInstanceAs (Decidable (a.distance ≤ b.distance))

instance : IsTotal RankedRow distLE := ⟨fun a b => Int.le_total a.distance b.distance⟩

instance : IsTrans RankedRow distLE := ⟨fun _ _ _ h1 h2 => le_trans h1 h2⟩

/-- The full-scan distance rows: every stored chunk paired with its distance
to the query embedding (what the fallback query `sql_fallback` returns). -/
def rankedOf (d : List Int → List Int → Int) (qemb : List Int)
    (store : List WebChunkRow) : List RankedRow :=
  store.map (fun r => RankedRow.mk r.url r.chunk_index r.chunk_text (d r.embedding qemb))

/-- Stable ascending sort by distance (Python `sorted` by the distance key). -/
def sortByDistance (rows : List RankedRow) : List RankedRow :=
  List.insertionSort distLE rows

/-- Embedding of `retrieve_top_k_chunks`.  `encode` is the sentence-encoder
oracle, `d` the store's distance operator, `store` the table contents, and
`primaryRows` the rows returned by the primary ordered-`LIMIT` query (an
oracle input: under the documented store bug it can be empty despite a
non-empty table).  Empty refined queries short-circuit to `[]`; an empty
table short-circuits to `[]` after the row-count check; a zero-row primary
result with a non-empty table triggers the unordered full-scan fallback with
Python-side sorting and top-k selection. -/
def retrieve_top_k_chunks (encode : List Char → List Int)
    (d : List Int → List Int → Int) (refinedQueries : List (List Char)) (k : Nat)
    (store : List WebChunkRow) (primaryRows : List RankedRow) : List RankedRow :=
  match refinedQueries with
  | [] => []
  | q0 :: _ =>
    let qemb := encode q0
    if store.length = 0 then []
    else if primaryRows.length = 0 then
      (sortByDistance (rankedOf d qemb store)).take k
    else primaryRows

/-! ### SQL sub-agent loop (backend/sql_agent.py, `run_sql_agent`).

The oracle (`call_llm_messages` + `extract_json_object` + `json.loads`)
is modeled per step as an `Except`: `.error` for a JSON decode failure
(fatal `ValueError` in the source) and `.ok` for the parsed object, of
which the loop reads the fields `action`, `final_answer`, `sql`, `thought`
via `dict.get` with the source's defaults.  The database behind
`execute_sql` is a second oracle mapping (step, sql) to columns+rows or an
execution error. -/

/-- The fields of the parsed per-step oracle object that the loop reads. -/
structure LlmResp where
  action : Option (List Char)
  final_answer : List Char
  sql : List Char
  thought : List Char
  deriving Repr, DecidableEq

/-- Result of a successful `execute_sql`: (columns, rows). -/
structure DbRes where
  columns : List (List Char)
  rows : List (List Int)
  deriving Repr, DecidableEq

/-- The observation recorded on a successful query:
`{row_count, columns, rows}`. -/
structure SqlObs where
  row_count : Nat
  columns : List (List Char)
  rows : List (List Int)
  deriving Repr, DecidableEq

/-- One `CALL_SQL` history entry: step index, thought, attempted sql, and
either the observation or the stringified execution error (the
`duration_seconds` wall-clock field is not modeled). -/
structure HistEntry where
  step : Nat
  thought : List Char
  sql : List Char
  outcome : Except (List Char) SqlObs
  deriving Repr

/-- The `{final_answer, history}` result of the loop (the
`name_normalization` passthrough field is not modeled). -/
structure SqlResult where
  final_answer : List Char
  history : List HistEntry
  deriving Repr

/-- The canned inconclusive answer returned on step-ceiling exhaustion. -/
def inconclusiveAnswer : List Char :=
  "I was not able to confidently answer this question within the step limit.".data

/-- Embedding of `execute_sql`: the guardrail gate runs first; only
gate-passed SQL reaches the database oracle. -/
def execute_sql (db : List Char → Except (List Char) DbRes) (sql : List Char) :
    Except (List Char) DbRes :=
  match validate_sql_readonly sql with
  | .error e => .error e
  | .ok _ => db sql

/-- The `for step in range(1, max_steps + 1)` loop of `run_sql_agent`,
counting down the remaining iterations.  Exhaustion returns the canned
inconclusive result; a FINISH with an empty-after-trim answer, a CALL_SQL
with an empty sql, an undecodable oracle response, and an unrecognized
action are all fatal; a CALL_SQL appends an observation or error entry to
the history and continues. -/
def sqlLoop (respond : Nat → Except (List Char) LlmResp)
    (db : Nat → List Char → Except (List Char) DbRes) :
    Nat → Nat → List HistEntry → Except (List Char) SqlResult
  | _, 0, history => .ok ⟨inconclusiveAnswer, history⟩
  | step, r + 1, history =>
    match respond step with
    | .error _ => .error "Agent did not return valid JSON".data
    | .ok parsed =>
      if parsed.action = some "FINISH".data then
        let fa := pyStrip parsed.final_answer
        if fa = [] then .error "FINISH action missing final_answer".data
        else .ok ⟨fa, history⟩
      else if parsed.action = some "CALL_SQL".data then
        if parsed.sql = [] then .error "CALL_SQL action missing sql".data
        else
          match execute_sql (db step) parsed.sql with
          | .ok res =>
            sqlLoop respond db (step + 1) r
              (history ++ [⟨step, parsed.thought, parsed.sql,
                .ok ⟨res.rows.length, res.columns, res.rows⟩⟩])
          | .error e =>
            sqlLoop respond db (step + 1) r
              (history ++ [⟨step, parsed.thought, parsed.sql, .error e⟩])
      else .error "Unexpected agent action".data

/-- Embedding of the agent-loop portion of `run_sql_agent` (after the name
normalization step has succeeded): steps run from 1 to `maxSteps` with an
empty initial history. -/
def run_sql_agent_loop (respond : Nat → Except (List Char) LlmResp)
    (db : Nat → List Char → Except (List Char) DbRes) (maxSteps : Nat) :
    Except (List Char) SqlResult :=
  sqlLoop respond db 1 maxSteps []

/-! ### Orchestrator loop (unified-agent/unified_agent.py,
`run_unified_agent`).  Same modeling conventions as the SQL loop; the two
sub-agent tools (`call_sql_agent`, `call_web_agent`) never raise — they
catch all exceptions into `{success: False, ..., error: str(e)}` — so they
are modeled as total oracles returning a structured `ToolResult`. -/

/-- The fields of the parsed orchestrator oracle object that the loop reads. -/
structure UResp where
  action : Option (List Char)
  final_answer : List Char
  question : Option (List Char)
  thought : List Char
  deriving Repr, DecidableEq

/-- The structured result of a sub-agent tool call. -/
structure ToolResult where
  success : Bool
  answer : List Char
  error : Option (List Char)
  deriving Repr, DecidableEq

/-- One orchestrator history entry. -/
structure UHistEntry where
  step : Nat
  action : List Char
  thought : List Char
  question : List Char
  result : ToolResult
  deriving Repr, DecidableEq

/-- The `{final_answer, history}` result of the orchestrator loop. -/
structure UResult where
  final_answer : List Char
  history : List UHistEntry
  deriving Repr, DecidableEq

/-- The canned inconclusive answer of the orchestrator loop. -/
def unifiedInconclusive : List Char :=
  "I was not able to complete the analysis within the step limit.".data

/-- The `for step in range(1, max_steps + 1)` loop of `run_unified_agent`.
Note the FINISH branch returns `final_answer.strip()` unconditionally —
there is no empty-answer check in this loop. -/
def unifiedLoop (question : List Char)
    (respond : Nat → Except (List Char) UResp)
    (sqlTool webTool : Nat → List Char → ToolResult) :
    Nat → Nat → List UHistEntry → Except (List Char) UResult
  | _, 0, history => .ok ⟨unifiedInconclusive, history⟩
  | step, r + 1, history =>
    match respond step with
    | .error _ => .error "Orchestrator did not return valid JSON".data
    | .ok parsed =>
      if parsed.action = some "FINISH".data then
        .ok ⟨pyStrip parsed.final_answer, history⟩
      else if parsed.action = some "CALL_SQL_AGENT".data then
        let subq := parsed.question.getD question
        unifiedLoop question respond sqlTool webTool (step + 1) r
          (history ++ [⟨step, "CALL_SQL_AGENT".data, parsed.thought, subq, sqlTool step subq⟩])
      else if parsed.action = some "CALL_WEB_AGENT".data then
        let subq := parsed.question.getD question
        unifiedLoop question respond sqlTool webTool (step + 1) r
          (history ++ [⟨step, "CALL_WEB_AGENT".data, parsed.thought, subq, webTool step subq⟩])
      else .error "Unexpected orchestrator action".data

/-- Embedding of `run_unified_agent`: steps 1..`maxSteps`, empty history. -/
def run_unified_agent (question : List Char)
    (respond : Nat → Except (List Char) UResp)
    (sqlTool webTool : Nat → List Char → ToolResult) (maxSteps : Nat) :
    Except (List Char) UResult :=
  unifiedLoop question respond sqlTool webTool 1 maxSteps []

/-! ### Entity normalizer (backend/sql_agent.py, `normalize_player_name`).

The oracle call, the extraction and `json.loads` are upstream; here we embed
the shape-handling logic applied to the decoded JSON value (the body of
`normalize_player_name` from `data = json.loads(clean)` on): the preferred
list-of-mentions shape under `"players"`, the legacy single-mention
fallback, confidence clamping, and the fatal non-dict case. -/

/-- Decoded JSON values. -/
inductive Json where
  | null : Json
  | bool : Bool → Json
  | num : Int → Json
  | str : List Char → Json
  | arr : List Json → Json
  | obj : List (List Char × Json) → Json

/-- Python `dict.get(key)` on a decoded JSON object (first binding wins). -/
def jsonGet (fields : List (List Char × Json)) (key : List Char) : Option Json :=
  (fields.find? (fun p => p.1 = key)).map Prod.snd

/-- Abstraction of Python `str(value)` for the coercion branches (its exact
rendering is irrelevant to every property below; only which branch ran is). -/
def pyStr : Json → List Char
  | .null => "None".data
  | .bool true => "True".data
  | .bool false => "False".data
  | .num n => (toString n).data
  | .str s => s
  | .arr _ => "<list>".data
  | .obj _ => "<dict>".data

/-- One coerced mention record. -/
structure Mention where
  original : Option (List Char)
  normalized : Option (List Char)
  confidence : List Char
  reason : List Char
  deriving Repr, DecidableEq

/-- The `_coerce_player` helper on a decoded JSON object: read the fields
with their defaults, clamp an out-of-enum confidence to `"low"`, and force
`original`/`normalized` to string-or-null and `reason` to string. -/
def coercePlayer (fields : List (List Char × Json)) : Mention :=
  let strOrNull : Option Json → Option (List Char) := fun v =>
    match v with
    | none => none
    | some .null => none
    | some (.str s) => some s
    | some other => some (pyStr other)
  let confidence :=
    match jsonGet fields "confidence".data with
    | some (.str c) =>
      if c = "high".data ∨ c = "medium".data ∨ c = "low".data then c else "low".data
    | some _ => "low".data
    | none => "low".data
  let reason :=
    match jsonGet fields "reason".data with
    | none => []
    | some (.str s) => s
    | some other => pyStr other
  ⟨strOrNull (jsonGet fields "original".data),
   strOrNull (jsonGet fields "normalized".data), confidence, reason⟩

/-- The `_coerce_player` call on an arbitrary list element: a non-dict
element makes `obj.get` raise (`AttributeError`), which is uncaught. -/
def coerceJson : Json → Except (List Char) Mention
  | .obj fields => .ok (coercePlayer fields)
  | _ => .error "AttributeError: get".data

/-- The shape-handling core of `normalize_player_name` on the decoded JSON
value: a dict with a non-empty `"players"` list takes the preferred path
(each element coerced); any other dict takes the legacy single-mention
fallback; a non-dict value is a fatal `ValueError`. -/
def normalize_player_name_shape (data : Json) : Except (List Char) (List Mention) :=
  match data with
  | .obj fields =>
    match jsonGet fields "players".data with
    | some (.arr ps) =>
      if ps.isEmpty then .ok [coercePlayer fields]
      else ps.mapM coerceJson
    | _ => .ok [coercePlayer fields]
  | _ => .error "Name normalizer returned unexpected structure".data

/-! ### Library of facts about the string primitives -/

/-- Characters are determined by their numeric code. -/
theorem char_eq_iff_toNat (c d : Char) : c = d ↔ c.toNat = d.toNat := by
  constructor
  · intro h; rw [h]
  · intro h
    have hc := Char.ofNat_toNat c
    rw [h, Char.ofNat_toNat d] at hc
    exact hc.symm

/-- Numeric characterization of the stripped whitespace set. -/
theorem pyWs_iff_toNat (c : Char) :
    pyWs c = true ↔
      (c.toNat = 32 ∨ c.toNat = 9 ∨ c.toNat = 10 ∨ c.toNat = 13 ∨
       c.toNat = 11 ∨ c.toNat = 12) := by
  unfold pyWs
  simp only [Bool.or_eq_true, decide_eq_true_eq]
  rw [char_eq_iff_toNat c ' ', char_eq_iff_toNat c '\t', char_eq_iff_toNat c '\n',
      char_eq_iff_toNat c '\r', char_eq_iff_toNat c '\x0b', char_eq_iff_toNat c '\x0c']
  show (((((c.toNat = 32 ∨ c.toNat = 9) ∨ c.toNat = 10) ∨ c.toNat = 13) ∨
      c.toNat = 11) ∨ c.toNat = 12) ↔ _
  tauto

/-- Characters with code at least 33 are not stripped whitespace. -/
theorem pyWs_eq_false_of_ge (c : Char) (h : 33 ≤ c.toNat) : pyWs c = false := by
  cases hx : pyWs c with
  | false => rfl
  | true => have := (pyWs_iff_toNat c).mp hx; omega

/-- Numeric code of a character built from a valid code point. -/
theorem toNat_ofNat_of_valid (n : Nat) (h : n.isValidChar) : (Char.ofNat n).toNat = n := by
  simp [Char.ofNat, h, Char.ofNatAux, Char.toNat, UInt32.toNat, UInt32.ofNatCore]

/-- ASCII case folding preserves whitespace-ness. -/
theorem pyWs_toLower (c : Char) : pyWs (Char.toLower c) = pyWs c := by
  show pyWs (if c.toNat ≥ 65 ∧ c.toNat ≤ 90 then Char.ofNat (c.toNat + 32) else c) = pyWs c
  split
  · rename_i h
    have hval : (Char.ofNat (c.toNat + 32)).toNat = c.toNat + 32 :=
      toNat_ofNat_of_valid (c.toNat + 32) (Or.inl (by omega))
    have h1 : pyWs c = false := pyWs_eq_false_of_ge c (by omega)
    have h2 : pyWs (Char.ofNat (c.toNat + 32)) = false :=
      pyWs_eq_false_of_ge _ (by rw [hval]; omega)
    rw [h1, h2]
  · rfl

/-- Case folding commutes with stripping. -/
theorem pyLower_pyStrip (s : List Char) : pyLower (pyStrip s) = pyStrip (pyLower s) := by
  have hfun : (pyWs ∘ Char.toLower) = pyWs := funext fun c => pyWs_toLower c
  unfold pyLower pyStrip
  rw [List.dropWhile_map, hfun, ← List.map_reverse, List.dropWhile_map, hfun,
      ← List.map_reverse]

/-- Substring containment is the existence of a decomposition. -/
theorem containsSubstr_iff (kw t : List Char) :
    containsSubstr kw t = true ↔ ∃ a b, t = a ++ kw ++ b := by
  induction t with
  | nil =>
    unfold containsSubstr
    rw [List.isPrefixOf_iff_prefix]
    constructor
    · intro h
      obtain ⟨b, hb⟩ := h
      exact ⟨[], b, by simp [← hb]⟩
    · rintro ⟨a, b, hab⟩
      have hnil : a ++ kw ++ b = [] := hab.symm
      simp only [List.append_eq_nil] at hnil
      exact ⟨[], by simp [hnil.1.2, hnil.2]⟩
  | cons c rest ih =>
    unfold containsSubstr
    rw [Bool.or_eq_true, List.isPrefixOf_iff_prefix, ih]
    constructor
    · rintro (⟨b, hb⟩ | ⟨a, b, hab⟩)
      · exact ⟨[], b, by simp [← hb]⟩
      · exact ⟨c :: a, b, by simp [hab]⟩
    · rintro ⟨a, b, hab⟩
      cases a with
      | nil =>
        left
        exact ⟨b, by simpa using hab.symm⟩
      | cons x xs =>
        right
        have h2 : c = x ∧ rest = xs ++ (kw ++ b) := by simpa using hab
        exact ⟨xs, b, by simp [h2.2]⟩

/-- Containment is invariant under reversing both sides. -/
theorem containsSubstr_reverse (kw t : List Char) :
    containsSubstr kw.reverse t.reverse = containsSubstr kw t := by
  cases hx : containsSubstr kw t with
  | true =>
    obtain ⟨a, b, hab⟩ := (containsSubstr_iff kw t).mp hx
    apply (containsSubstr_iff kw.reverse t.reverse).mpr
    exact ⟨b.reverse, a.reverse, by simp [hab]⟩
  | false =>
    cases hy : containsSubstr kw.reverse t.reverse with
    | false => rfl
    | true =>
      obtain ⟨a, b, hab⟩ := (containsSubstr_iff _ _).mp hy
      have : containsSubstr kw t = true := by
        apply (containsSubstr_iff kw t).mpr
        refine ⟨b.reverse, a.reverse, ?_⟩
        have := congrArg List.reverse hab
        simpa using this
      rw [hx] at this
      exact this.symm

/-- A needle that begins with a non-whitespace character ignores a leading
whitespace character of the haystack. -/
theorem containsSubstr_cons_ws (k0 : Char) (ks : List Char) (c : Char) (t : List Char)
    (hc : pyWs c = true) (hk : pyWs k0 = false) :
    containsSubstr (k0 :: ks) (c :: t) = containsSubstr (k0 :: ks) t := by
  show ((k0 :: ks).isPrefixOf (c :: t) || containsSubstr (k0 :: ks) t) = _
  have hne : (k0 == c) = false := by
    cases h : k0 == c with
    | false => rfl
    | true =>
      have : k0 = c := by simpa using h
      rw [this, hc] at hk
      exact absurd hk (by simp)
  show ((k0 == c && ks.isPrefixOf t) || containsSubstr (k0 :: ks) t) = _
  rw [hne]
  simp

/-- A non-whitespace needle ignores leading whitespace of the haystack. -/
theorem containsSubstr_dropWhile (k0 : Char) (ks : List Char) (t : List Char)
    (hk : pyWs k0 = false) :
    containsSubstr (k0 :: ks) (t.dropWhile pyWs) = containsSubstr (k0 :: ks) t := by
  induction t with
  | nil => rfl
  | cons c rest ih =>
    cases hc : pyWs c with
    | true =>
      rw [List.dropWhile_cons_of_pos hc, ih, containsSubstr_cons_ws k0 ks c rest hc hk]
    | false =>
      rw [List.dropWhile_cons_of_neg (by simp [hc])]

/-- Containment with a reversed haystack is containment of the reversed
needle. -/
theorem containsSubstr_rev_right (kw Y : List Char) :
    containsSubstr kw Y.reverse = containsSubstr kw.reverse Y := by
  have h := containsSubstr_reverse kw Y.reverse
  rw [List.reverse_reverse] at h
  exact h.symm

/-- A non-empty, all-non-whitespace needle occurs in a string exactly when it
occurs in the stripped string. -/
theorem containsSubstr_pyStrip (kw t : List Char) (hne : kw ≠ [])
    (hws : ∀ c ∈ kw, pyWs c = false) :
    containsSubstr kw (pyStrip t) = containsSubstr kw t := by
  obtain ⟨k0, ks, rfl⟩ := List.exists_cons_of_ne_nil hne
  have hk0 : pyWs k0 = false := hws k0 (by simp)
  obtain ⟨r0, rs, hrev⟩ := List.exists_cons_of_ne_nil
    (show (k0 :: ks).reverse ≠ [] by simp)
  have hr0 : pyWs r0 = false := by
    have hmem : r0 ∈ (k0 :: ks).reverse := by rw [hrev]; exact List.mem_cons_self r0 rs
    exact hws r0 (List.mem_reverse.mp hmem)
  unfold pyStrip
  rw [containsSubstr_rev_right (k0 :: ks) ((t.dropWhile pyWs).reverse.dropWhile pyWs)]
  rw [hrev, containsSubstr_dropWhile r0 rs _ hr0, ← hrev]
  have h2 := containsSubstr_rev_right (k0 :: ks).reverse (t.dropWhile pyWs)
  rw [List.reverse_reverse] at h2
  rw [h2]
  exact containsSubstr_dropWhile k0 ks t hk0

/-- Every deny-listed keyword is non-empty and whitespace-free. -/
theorem banned_keywords_wf :
    ∀ kw ∈ BANNED_SQL_KEYWORDS, kw ≠ [] ∧ ∀ c ∈ kw, pyWs c = false := by decide

/-- For deny-listed keywords, containment in the trimmed case-folded string
and in the case-folded string coincide. -/
theorem banned_contains_strip (kw : List Char) (h : kw ∈ BANNED_SQL_KEYWORDS)
    (sql : List Char) :
    containsSubstr kw (pyLower (pyStrip sql)) = containsSubstr kw (pyLower sql) := by
  rw [pyLower_pyStrip]
  exact containsSubstr_pyStrip kw (pyLower sql) (banned_keywords_wf kw h).1
    (banned_keywords_wf kw h).2

/-- Claim C1 (amended): `validate_sql_readonly` raises exactly when the
input, trimmed and case-folded, does not lexically begin with `select` or
`with`, or the input contains (case-insensitively) a deny-listed mutating
verb as a substring.  (The claim's further "contains a statement separator"
disjunct is not checked by the code — see the counterexample.) -/
theorem validate_sql_readonly_rejects_iff (sql : List Char) :
    (∃ e, validate_sql_readonly sql = Except.error e) ↔
      (¬ (startsWith "select".data (pyLower (pyStrip sql)) = true ∨
          startsWith "with".data (pyLower (pyStrip sql)) = true) ∨
       ∃ kw ∈ BANNED_SQL_KEYWORDS, containsSubstr kw (pyLower sql) = true) := by
  unfold validate_sql_readonly
  cases hb : (startsWith "select".data (pyLower (pyStrip sql)) ||
      startsWith "with".data (pyLower (pyStrip sql))) with
  | false =>
    simp only [hb, Bool.false_eq_true, if_false]
    rw [Bool.or_eq_false_iff] at hb
    constructor
    · intro _
      left
      rw [hb.1, hb.2]
      simp
    · intro _
      exact ⟨_, rfl⟩
  | true =>
    simp only [hb, if_true]
    rw [Bool.or_eq_true] at hb
    cases hf : BANNED_SQL_KEYWORDS.find? (fun kw =>
        containsSubstr kw (pyLower (pyStrip sql))) with
    | some kw =>
      constructor
      · intro _
        right
        refine ⟨kw, List.mem_of_find?_eq_some hf, ?_⟩
        have hp := List.find?_some hf
        rw [← banned_contains_strip kw (List.mem_of_find?_eq_some hf) sql]
        exact hp
      · intro _
        exact ⟨_, rfl⟩
    | none =>
      rw [List.find?_eq_none] at hf
      constructor
      · rintro ⟨e, he⟩
        exact absurd he (by simp)
      · rintro (hcontra | ⟨kw, hmem, hcs⟩)
        · exact absurd hb (by tauto)
        · have := hf kw hmem
          rw [banned_contains_strip kw hmem sql] at this
          exact absurd hcs (by simpa using this)

/-- Claim C1 (counterexample): a query containing the statement separator
`;` but no deny-listed verb passes the gate — `validate_sql_readonly` has no
separator check, so the claim's "contains a statement separator implies
raises" direction is false at this input. -/
theorem validate_sql_semicolon_accepted :
    containsSubstr ";".data "select 1; select 2".data = true ∧
    validate_sql_readonly "select 1; select 2".data = Except.ok () :=
  ⟨by decide, rfl⟩

/-- Claim C1 (witness): the amended equivalence applied at a concrete
rejected input. -/
theorem validate_sql_readonly_rejects_iff_witness :
    ∃ e, validate_sql_readonly "drop table t".data = Except.error e :=
  (validate_sql_readonly_rejects_iff "drop table t".data).mpr (Or.inl (by decide))

/-- Stripping is the identity on strings with non-whitespace ends. -/
theorem pyStrip_eq_self (s : List Char)
    (h1 : ∀ c, s.head? = some c → pyWs c = false)
    (h2 : ∀ c, s.getLast? = some c → pyWs c = false) : pyStrip s = s := by
  cases s with
  | nil => rfl
  | cons a t =>
    have ha : pyWs a = false := h1 a rfl
    unfold pyStrip
    rw [List.dropWhile_cons_of_neg (by simp [ha])]
    obtain ⟨r0, rs, hrev⟩ := List.exists_cons_of_ne_nil
      (show (a :: t).reverse ≠ [] by simp)
    have hr : pyWs r0 = false := by
      apply h2
      rw [← List.head?_reverse, hrev]
      rfl
    rw [hrev, List.dropWhile_cons_of_neg (by simp [hr]), ← hrev, List.reverse_reverse]

/-- Claim C8: `extract_json_object` applies its cases in order — an input
that is already exactly one brace-delimited object is returned as-is; else
the interior of a fenced block whose (stripped) interior is brace-delimited
is returned; else the substring from the first opening brace to the last
closing brace (when the first precedes the last) is returned; else the
trimmed input is returned unchanged — together with the four pinned
example mappings. -/
theorem extract_json_object_spec :
    (∀ raw, startsWith "\x7b".data raw = true → endsWith "\x7d".data raw = true →
      extract_json_object raw = raw) ∧
    (∀ raw g,
      (startsWith "\x7b".data (pyStrip raw) && endsWith "\x7d".data (pyStrip raw)) = false →
      fenceGroup (pyStrip raw) = some g →
      (startsWith "\x7b".data (pyStrip g) && endsWith "\x7d".data (pyStrip g)) = true →
      extract_json_object raw = pyStrip g) ∧
    (∀ raw f l,
      (startsWith "\x7b".data (pyStrip raw) && endsWith "\x7d".data (pyStrip raw)) = false →
      (∀ g, fenceGroup (pyStrip raw) = some g →
        (startsWith "\x7b".data (pyStrip g) && endsWith "\x7d".data (pyStrip g)) = false) →
      findChar '\x7b' (pyStrip raw) = some f →
      rfindChar '\x7d' (pyStrip raw) = some l → f < l →
      extract_json_object raw = pyStrip (pySlice (pyStrip raw) f (l + 1))) ∧
    (∀ raw,
      (startsWith "\x7b".data (pyStrip raw) && endsWith "\x7d".data (pyStrip raw)) = false →
      (∀ g, fenceGroup (pyStrip raw) = some g →
        (startsWith "\x7b".data (pyStrip g) && endsWith "\x7d".data (pyStrip g)) = false) →
      (¬ ∃ f l, findChar '\x7b' (pyStrip raw) = some f ∧
        rfindChar '\x7d' (pyStrip raw) = some l ∧ f < l) →
      extract_json_object raw = pyStrip raw) ∧
    extract_json_object "\x7b\"a\":1\x7d".data = "\x7b\"a\":1\x7d".data ∧
    extract_json_object "```json\n\x7b\"a\":1\x7d\n```".data = "\x7b\"a\":1\x7d".data ∧
    extract_json_object "noise \x7b\"a\":1\x7d trailing".data = "\x7b\"a\":1\x7d".data ∧
    extract_json_object "no braces".data = "no braces".data := by
  refine ⟨?_, ?_, ?_, ?_, by decide, by decide, by decide, by decide⟩
  · intro raw hs he
    have hstrip : pyStrip raw = raw := by
      apply pyStrip_eq_self
      · intro c hc
        rw [startsWith, List.isPrefixOf_iff_prefix] at hs
        obtain ⟨b, hb⟩ := hs
        rw [← hb] at hc
        have : c = '\x7b' := by
          simp only [List.cons_append] at hc
          simpa using (Option.some.inj hc).symm
        rw [this]; decide
      · intro c hc
        rw [endsWith, List.isPrefixOf_iff_prefix] at he
        obtain ⟨b, hb⟩ := he
        rw [← List.head?_reverse, ← hb] at hc
        have : c = '\x7d' := by
          simp only [List.cons_append] at hc
          simpa using (Option.some.inj hc).symm
        rw [this]; decide
    simp [extract_json_object, hstrip, hs, he]
  · intro raw g hcond hfg hinner
    simp [extract_json_object, hcond, hfg, hinner]
  · intro raw f l hcond hfence hfind hrfind hlt
    cases hfg : fenceGroup (pyStrip raw) with
    | none => simp [extract_json_object, hcond, hfg, hfind, hrfind, hlt]
    | some g => simp [extract_json_object, hcond, hfg, hfence g hfg, hfind, hrfind, hlt]
  · intro raw hcond hfence hnone
    have hbr : ∀ f l, findChar '\x7b' (pyStrip raw) = some f →
        rfindChar '\x7d' (pyStrip raw) = some l → ¬ f < l := by
      intro f l hf hl hlt
      exact hnone ⟨f, l, hf, hl, hlt⟩
    cases hfg : fenceGroup (pyStrip raw) with
    | none =>
      cases hfind : findChar '\x7b' (pyStrip raw) with
      | none =>
        cases hrfind : rfindChar '\x7d' (pyStrip raw) with
        | none => simp [extract_json_object, hcond, hfg, hfind, hrfind]
        | some l => simp [extract_json_object, hcond, hfg, hfind, hrfind]
      | some f =>
        cases hrfind : rfindChar '\x7d' (pyStrip raw) with
        | none => simp [extract_json_object, hcond, hfg, hfind, hrfind]
        | some l =>
          simp [extract_json_object, hcond, hfg, hfind, hrfind, hbr f l hfind hrfind]
    | some g =>
      cases hfind : findChar '\x7b' (pyStrip raw) with
      | none =>
        cases hrfind : rfindChar '\x7d' (pyStrip raw) with
        | none => simp [extract_json_object, hcond, hfg, hfence g hfg, hfind, hrfind]
        | some l => simp [extract_json_object, hcond, hfg, hfence g hfg, hfind, hrfind]
      | some f =>
        cases hrfind : rfindChar '\x7d' (pyStrip raw) with
        | none => simp [extract_json_object, hcond, hfg, hfence g hfg, hfind, hrfind]
        | some l =>
          simp [extract_json_object, hcond, hfg, hfence g hfg, hfind, hrfind,
            hbr f l hfind hrfind]

/-- Claim C8 (witness): the first case applied at a concrete brace-delimited
input. -/
theorem extract_json_object_spec_witness :
    startsWith "\x7b".data "\x7b\x7d".data = true ∧
    endsWith "\x7d".data "\x7b\x7d".data = true ∧
    extract_json_object "\x7b\x7d".data = "\x7b\x7d".data :=
  ⟨by decide, by decide,
    extract_json_object_spec.1 "\x7b\x7d".data (by decide) (by decide)⟩

/-- Head of a non-zero-fuel chunking loop: the first emitted window starts at
the current start index and ends at `min endIdx (start + C - 1)`. -/
theorem chunkLoopF_head (fuel e s : Nat) :
    (chunkLoopF (fuel + 1) e s).head? = some (s, min e (s + (CHUNK_SIZE - 1))) := by
  by_cases hr : min e (s + (CHUNK_SIZE - 1)) = e
  · simp [chunkLoopF, hr]
  · simp [chunkLoopF, hr]

/-- Every emitted window starts no earlier than the loop's start index, stays
within the token range, and spans to `min endIdx (start + C - 1)`. -/
theorem chunkLoopF_shape : ∀ (fuel e s : Nat), s ≤ e →
    ∀ p ∈ chunkLoopF fuel e s,
      s ≤ p.1 ∧ p.1 ≤ e ∧ p.2 = min e (p.1 + (CHUNK_SIZE - 1)) := by
  intro fuel
  induction fuel with
  | zero => intro e s _ p hp; simp [chunkLoopF] at hp
  | succ fuel ih =>
    intro e s hse p hp
    by_cases hr : min e (s + (CHUNK_SIZE - 1)) = e
    · simp [chunkLoopF, hr] at hp
      subst hp
      exact ⟨le_refl s, hse, by omega⟩
    · simp [chunkLoopF, hr] at hp
      rcases hp with rfl | htail
      · exact ⟨le_refl s, hse, by omega⟩
      · have h511 : s + (CHUNK_SIZE - 1) < e := by omega
        have hmin : min e (s + (CHUNK_SIZE - CHUNK_OVERLAP)) =
            s + (CHUNK_SIZE - CHUNK_OVERLAP) := by
          simp [CHUNK_SIZE, CHUNK_OVERLAP] at *; omega
        rw [hmin] at htail
        obtain ⟨ih1, ih2, ih3⟩ := ih e (s + (CHUNK_SIZE - CHUNK_OVERLAP))
          (by simp [CHUNK_SIZE, CHUNK_OVERLAP] at *; omega) p htail
        exact ⟨by omega, ih2, ih3⟩

/-- Coverage: with sufficient fuel, every token index between the start index
and the end index lies in some emitted window. -/
theorem chunkLoopF_coverage : ∀ (fuel e s j : Nat), e < s + fuel → s ≤ j → j ≤ e →
    ∃ p ∈ chunkLoopF fuel e s, p.1 ≤ j ∧ j ≤ p.2 := by
  intro fuel
  induction fuel with
  | zero => intro e s j h hs hj; omega
  | succ fuel ih =>
    intro e s j h hs hj
    by_cases hr : min e (s + (CHUNK_SIZE - 1)) = e
    · refine ⟨(s, min e (s + (CHUNK_SIZE - 1))), ?_, hs, ?_⟩
      · simp [chunkLoopF, hr]
      · omega
    · have h511 : s + (CHUNK_SIZE - 1) < e := by omega
      by_cases hj2 : j ≤ s + (CHUNK_SIZE - 1)
      · refine ⟨(s, min e (s + (CHUNK_SIZE - 1))), ?_, hs, by omega⟩
        simp [chunkLoopF, hr]
      · have hmin : min e (s + (CHUNK_SIZE - CHUNK_OVERLAP)) =
            s + (CHUNK_SIZE - CHUNK_OVERLAP) := by
          simp [CHUNK_SIZE, CHUNK_OVERLAP] at *; omega
        obtain ⟨p, hp, hp1, hp2⟩ := ih e (s + (CHUNK_SIZE - CHUNK_OVERLAP)) j
          (by simp [CHUNK_SIZE, CHUNK_OVERLAP] at *; omega)
          (by simp [CHUNK_SIZE, CHUNK_OVERLAP] at *; omega) hj
        refine ⟨p, ?_, hp1, hp2⟩
        simp only [chunkLoopF, hr, if_false]
        rw [hmin]
        exact List.mem_cons_of_mem _ hp

/-- Final window: with sufficient fuel, the last emitted window ends exactly
at the end index. -/
theorem chunkLoopF_last : ∀ (fuel e s : Nat), s ≤ e → e < s + fuel →
    ∃ q, (chunkLoopF fuel e s).getLast? = some q ∧ q.2 = e := by
  intro fuel
  induction fuel with
  | zero => intro e s hse h; omega
  | succ fuel ih =>
    intro e s hse h
    by_cases hr : min e (s + (CHUNK_SIZE - 1)) = e
    · exact ⟨(s, min e (s + (CHUNK_SIZE - 1))), by simp [chunkLoopF, hr], hr⟩
    · have h511 : s + (CHUNK_SIZE - 1) < e := by omega
      have hmin : min e (s + (CHUNK_SIZE - CHUNK_OVERLAP)) =
          s + (CHUNK_SIZE - CHUNK_OVERLAP) := by
        simp [CHUNK_SIZE, CHUNK_OVERLAP] at *; omega
      obtain ⟨q, hq, hq2⟩ := ih e (s + (CHUNK_SIZE - CHUNK_OVERLAP))
        (by simp [CHUNK_SIZE, CHUNK_OVERLAP] at *; omega)
        (by simp [CHUNK_SIZE, CHUNK_OVERLAP] at *; omega)
      refine ⟨q, ?_, hq2⟩
      simp only [chunkLoopF, hr, if_false]
      rw [hmin, List.getLast?_cons, hq]
      simp

/-- Advance: consecutive emitted windows' starts differ by exactly `C - O`. -/
theorem chunkLoopF_chain : ∀ (fuel e s : Nat),
    List.Chain' (fun p q : Nat × Nat => q.1 = p.1 + (CHUNK_SIZE - CHUNK_OVERLAP))
      (chunkLoopF fuel e s) := by
  intro fuel
  induction fuel with
  | zero => intro e s; simp [chunkLoopF]
  | succ fuel ih =>
    intro e s
    by_cases hr : min e (s + (CHUNK_SIZE - 1)) = e
    · simp [chunkLoopF, hr]
    · have h511 : s + (CHUNK_SIZE - 1) < e := by omega
      have hmin : min e (s + (CHUNK_SIZE - CHUNK_OVERLAP)) =
          s + (CHUNK_SIZE - CHUNK_OVERLAP) := by
        simp [CHUNK_SIZE, CHUNK_OVERLAP] at *; omega
      simp only [chunkLoopF, hr, if_false]
      rw [hmin, List.chain'_cons']
      refine ⟨?_, ih e (s + (CHUNK_SIZE - CHUNK_OVERLAP))⟩
      intro b hb
      cases fuel with
      | zero => simp [chunkLoopF] at hb
      | succ f =>
        rw [chunkLoopF_head f e (s + (CHUNK_SIZE - CHUNK_OVERLAP))] at hb
        simp only [Option.mem_def, Option.some.injEq] at hb
        subst hb
        rfl

/-- Claim C4: for a document with `N ≥ 1` token offsets, the chunker's
windows (size `C = 512`, overlap `O = 64`) cover every token index with no
gap, each window spans from its start to `min (N-1) (start + C - 1)`,
consecutive window starts advance by exactly `C − O`, the final window ends
exactly at the last token, and the emitted chunks are materialized from the
original text by the windows' character offsets (Python slicing clips at the
document end). -/
theorem chunker_coverage_spec (tokenize : List Char → List (Nat × Nat))
    (t : List Char) (offsets : List (Nat × Nat))
    (htok : tokenize t = offsets) (hne : offsets ≠ []) :
    (∀ j < offsets.length,
      ∃ p ∈ chunkWindows (offsets.length - 1), p.1 ≤ j ∧ j ≤ p.2) ∧
    (∀ p ∈ chunkWindows (offsets.length - 1),
      p.1 ≤ offsets.length - 1 ∧
      p.2 = min (offsets.length - 1) (p.1 + (CHUNK_SIZE - 1))) ∧
    List.Chain' (fun p q : Nat × Nat => q.1 = p.1 + (CHUNK_SIZE - CHUNK_OVERLAP))
      (chunkWindows (offsets.length - 1)) ∧
    (∃ q, (chunkWindows (offsets.length - 1)).getLast? = some q ∧
      q.2 = offsets.length - 1) ∧
    process_text_into_chunks_with_embeddings tokenize (some t) =
      .ok ((chunkWindows (offsets.length - 1)).map (fun p =>
        pySlice t (offsets.getD p.1 (0, 0)).1 (offsets.getD p.2 (0, 0)).2)) := by
  obtain ⟨o0, os, rfl⟩ := List.exists_cons_of_ne_nil hne
  refine ⟨?_, ?_, ?_, ?_, ?_⟩
  · intro j hj
    exact chunkLoopF_coverage ((o0 :: os).length - 1 + 1) ((o0 :: os).length - 1) 0 j
      (by omega) (Nat.zero_le j) (by simp at hj ⊢; omega)
  · intro p hp
    obtain ⟨_, h2, h3⟩ := chunkLoopF_shape ((o0 :: os).length - 1 + 1)
      ((o0 :: os).length - 1) 0 (Nat.zero_le _) p hp
    exact ⟨h2, h3⟩
  · exact chunkLoopF_chain _ _ _
  · exact chunkLoopF_last _ _ _ (Nat.zero_le _) (by omega)
  · simp [process_text_into_chunks_with_embeddings, htok]

/-- Claim C4 (witness): the coverage conjunct applied to a concrete
two-token document. -/
theorem chunker_coverage_spec_witness :
    ∃ p ∈ chunkWindows 1, p.1 ≤ 1 ∧ 1 ≤ p.2 :=
  (chunker_coverage_spec (fun _ => [(0, 1), (1, 2)]) "ab".data [(0, 1), (1, 2)]
    rfl (by decide)).1 1 (by decide)

/-- Claim C3 (amended): a null extraction yields zero chunks without
raising, and any extraction with at least one token offset yields chunks
without raising; but an extracted text whose tokenization yields zero
offsets raises an `IndexError` (`offsets[start_idx]` on an empty list)
instead of yielding zero chunks. -/
theorem process_text_null_or_empty (tokenize : List Char → List (Nat × Nat)) :
    (process_text_into_chunks_with_embeddings tokenize none = .ok []) ∧
    (∀ t, tokenize t = [] →
      process_text_into_chunks_with_embeddings tokenize (some t) =
        .error "IndexError: list index out of range".data) ∧
    (∀ t, tokenize t ≠ [] →
      ∃ chunks, process_text_into_chunks_with_embeddings tokenize (some t) =
        .ok chunks) := by
  refine ⟨rfl, ?_, ?_⟩
  · intro t ht
    simp [process_text_into_chunks_with_embeddings, ht]
  · intro t ht
    obtain ⟨o0, os, hoff⟩ := List.exists_cons_of_ne_nil ht
    exact ⟨_, by simp only [process_text_into_chunks_with_embeddings, hoff]; rfl⟩

/-- Claim C3 (counterexample): an empty extracted text — whose offset
mapping is empty — makes the function raise rather than return zero chunks,
so "null or empty extraction yields zero chunks without raising" is false
for the empty-text half. -/
theorem process_text_empty_raises :
    process_text_into_chunks_with_embeddings (fun _ => []) (some []) =
      .error "IndexError: list index out of range".data ∧
    process_text_into_chunks_with_embeddings (fun _ => []) (some []) ≠
      .ok [] :=
  ⟨rfl, fun h => Except.noConfusion h⟩

/-- Claim C3 (witness): the null-extraction conjunct at a concrete
tokenizer. -/
theorem process_text_null_or_empty_witness :
    process_text_into_chunks_with_embeddings (fun _ => [(0, 1)]) none = .ok [] :=
  (process_text_null_or_empty (fun _ => [(0, 1)])).1

/-- A per-step oracle outcome that parses to a well-formed `CALL_SQL` action
(the only non-`FINISH` action of the loop's alphabet; an unrecognized action
or a `CALL_SQL` without sql is a fatal parse violation, not an action). -/
def goodCallSql (r : Except (List Char) LlmResp) : Prop :=
  ∃ p, r = .ok p ∧ p.action = some "CALL_SQL".data ∧ p.sql ≠ []

/-- Generalized exhaustion invariant of the SQL agent loop: if every
remaining step parses to a well-formed `CALL_SQL`, the loop runs all
remaining iterations, appends exactly one history entry per iteration, and
returns the canned inconclusive result. -/
theorem sqlLoop_exhausts (respond : Nat → Except (List Char) LlmResp)
    (db : Nat → List Char → Except (List Char) DbRes) :
    ∀ (r step : Nat) (history : List HistEntry),
    (∀ i, step ≤ i → i < step + r → goodCallSql (respond i)) →
    ∃ h2, sqlLoop respond db step r history = .ok ⟨inconclusiveAnswer, history ++ h2⟩ ∧
      h2.length = r := by
  intro r
  induction r with
  | zero => intro step history _; exact ⟨[], by simp [sqlLoop], rfl⟩
  | succ r ih =>
    intro step history h
    obtain ⟨p, hp, ha, hs⟩ := h step (le_refl _) (by omega)
    have hfin : ¬ (p.action = some "FINISH".data) := by rw [ha]; decide
    cases hex : execute_sql (db step) p.sql with
    | ok res =>
      obtain ⟨h2, hh, hlen⟩ := ih (step + 1)
        (history ++ [⟨step, p.thought, p.sql, .ok ⟨res.rows.length, res.columns, res.rows⟩⟩])
        (fun i h1 h2 => h i (by omega) (by omega))
      refine ⟨⟨step, p.thought, p.sql, .ok ⟨res.rows.length, res.columns, res.rows⟩⟩ :: h2,
        ?_, by simp [hlen]⟩
      simp only [sqlLoop, hp]
      rw [if_neg hfin, if_pos ha, if_neg hs, hex]
      simp only [hh]
      simp
    | error e =>
      obtain ⟨h2, hh, hlen⟩ := ih (step + 1)
        (history ++ [⟨step, p.thought, p.sql, .error e⟩])
        (fun i h1 h2 => h i (by omega) (by omega))
      refine ⟨⟨step, p.thought, p.sql, .error e⟩ :: h2, ?_, by simp [hlen]⟩
      simp only [sqlLoop, hp]
      rw [if_neg hfin, if_pos ha, if_neg hs, hex]
      simp only [hh]
      simp

/-- Claim C6: for every oracle response sequence in which every consulted
step parses to a (well-formed, hence non-`FINISH`) `CALL_SQL` action, the
SQL agent loop performs exactly `maxSteps` iterations — one history entry
each — and returns the canned inconclusive answer together with the
accumulated history, rather than raising. -/
theorem run_sql_agent_exhausts (respond : Nat → Except (List Char) LlmResp)
    (db : Nat → List Char → Except (List Char) DbRes) (maxSteps : Nat)
    (h : ∀ i, 1 ≤ i → i ≤ maxSteps → goodCallSql (respond i)) :
    ∃ hist, run_sql_agent_loop respond db maxSteps =
      .ok ⟨inconclusiveAnswer, hist⟩ ∧ hist.length = maxSteps := by
  obtain ⟨h2, hh, hlen⟩ := sqlLoop_exhausts respond db maxSteps 1 []
    (fun i h1 h2 => h i h1 (by omega))
  exact ⟨h2, by simpa [run_sql_agent_loop] using hh, hlen⟩

/-- A concrete all-`CALL_SQL` oracle for the C6 witness. -/
def respAlwaysCallSql : Nat → Except (List Char) LlmResp :=
  fun _ => .ok ⟨some "CALL_SQL".data, [], "select 1".data, []⟩

/-- A concrete always-failing database oracle. -/
def dbAlwaysFails : Nat → List Char → Except (List Char) DbRes :=
  fun _ _ => .error "db down".data

/-- Claim C6 (witness): the exhaustion theorem applied to a concrete
two-step run. -/
theorem run_sql_agent_exhausts_witness :
    (∀ i, 1 ≤ i → i ≤ 2 → goodCallSql (respAlwaysCallSql i)) ∧
    ∃ hist, run_sql_agent_loop respAlwaysCallSql dbAlwaysFails 2 =
      .ok ⟨inconclusiveAnswer, hist⟩ ∧ hist.length = 2 :=
  ⟨fun _ _ _ => ⟨_, rfl, rfl, by decide⟩,
    run_sql_agent_exhausts respAlwaysCallSql dbAlwaysFails 2
      (fun _ _ _ => ⟨_, rfl, rfl, by decide⟩)⟩

/-- Claim C7: whenever `execute_sql` raises during a `CALL_SQL` step (the
gate included), the loop appends a history entry carrying the step index,
the attempted sql and the stringified error, and continues with the next
iteration — the failure is neither fatal nor dropped. -/
theorem sqlLoop_error_continues (respond : Nat → Except (List Char) LlmResp)
    (db : Nat → List Char → Except (List Char) DbRes) (step r : Nat)
    (history : List HistEntry) (p : LlmResp) (e : List Char)
    (hresp : respond step = .ok p) (ha : p.action = some "CALL_SQL".data)
    (hs : p.sql ≠ []) (hexec : execute_sql (db step) p.sql = .error e) :
    sqlLoop respond db step (r + 1) history =
      sqlLoop respond db (step + 1) r
        (history ++ [⟨step, p.thought, p.sql, .error e⟩]) := by
  have hfin : ¬ (p.action = some "FINISH".data) := by rw [ha]; decide
  simp only [sqlLoop, hresp]
  rw [if_neg hfin, if_pos ha, if_neg hs, hexec]

/-- Claim C7 (witness): the continuation equation at a concrete failing
step, together with the concrete gate rejection that produces it. -/
theorem sqlLoop_error_continues_witness :
    execute_sql (dbAlwaysFails 1) "select 1".data = .error "db down".data ∧
    sqlLoop respAlwaysCallSql dbAlwaysFails 1 1 [] =
      sqlLoop respAlwaysCallSql dbAlwaysFails 2 0
        [⟨1, [], "select 1".data, .error "db down".data⟩] :=
  ⟨rfl, sqlLoop_error_continues respAlwaysCallSql dbAlwaysFails 1 0 []
    ⟨some "CALL_SQL".data, [], "select 1".data, []⟩ "db down".data
    rfl rfl (by decide) rfl⟩

/-- Claim C2 (amended): a `FINISH` whose answer is empty after trimming is
fatal in the SQL sub-agent loop (`run_sql_agent` raises), but in the
orchestrator loop (`run_unified_agent`) it is not: the loop returns the
empty answer as the result. -/
theorem finish_empty_answer_behavior :
    (∀ (respond : Nat → Except (List Char) LlmResp)
       (db : Nat → List Char → Except (List Char) DbRes)
       (step r : Nat) (history : List HistEntry) (p : LlmResp),
      respond step = .ok p → p.action = some "FINISH".data →
      pyStrip p.final_answer = [] →
      sqlLoop respond db step (r + 1) history =
        .error "FINISH action missing final_answer".data) ∧
    (∀ (question : List Char) (respond : Nat → Except (List Char) UResp)
       (sqlTool webTool : Nat → List Char → ToolResult)
       (step r : Nat) (history : List UHistEntry) (p : UResp),
      respond step = .ok p → p.action = some "FINISH".data →
      pyStrip p.final_answer = [] →
      unifiedLoop question respond sqlTool webTool step (r + 1) history =
        .ok ⟨[], history⟩) := by
  constructor
  · intro respond db step r history p hresp ha hfa
    simp only [sqlLoop, hresp]
    rw [if_pos ha, hfa]
    simp
  · intro question respond sqlTool webTool step r history p hresp ha hfa
    simp only [unifiedLoop, hresp]
    rw [if_pos ha, hfa]

/-- Claim C2 (counterexample): the orchestrator loop handed a `FINISH` with
a whitespace-only answer returns that empty answer as a normal result — it
does not raise, contradicting the claim that the empty final answer is
fatal in both loops. -/
theorem unified_empty_finish_returns :
    run_unified_agent "q".data
      (fun _ => .ok ⟨some "FINISH".data, "   ".data, none, []⟩)
      (fun _ _ => ⟨true, [], none⟩) (fun _ _ => ⟨true, [], none⟩) 5 =
      .ok ⟨[], []⟩ := rfl

/-- Claim C2 (witness): both halves applied at concrete inputs. -/
theorem finish_empty_answer_behavior_witness :
    sqlLoop (fun _ => .ok ⟨some "FINISH".data, "  ".data, [], []⟩) dbAlwaysFails
      1 5 [] = .error "FINISH action missing final_answer".data ∧
    unifiedLoop "q".data (fun _ => .ok ⟨some "FINISH".data, "  ".data, none, []⟩)
      (fun _ _ => ⟨true, [], none⟩) (fun _ _ => ⟨true, [], none⟩) 1 5 [] =
      .ok ⟨[], []⟩ :=
  ⟨finish_empty_answer_behavior.1 _ dbAlwaysFails 1 4 []
      ⟨some "FINISH".data, "  ".data, [], []⟩ rfl rfl (by decide),
   finish_empty_answer_behavior.2 "q".data _ _ _ 1 4 []
      ⟨some "FINISH".data, "  ".data, none, []⟩ rfl rfl (by decide)⟩

/-- Mapping the coercion over a list of decoded objects succeeds and
preserves the count. -/
theorem mapM_coerce_length : ∀ (ps : List Json), (∀ v ∈ ps, ∃ o, v = Json.obj o) →
    ∃ ms, ps.mapM coerceJson = Except.ok ms ∧ ms.length = ps.length := by
  intro ps
  induction ps with
  | nil => intro _; exact ⟨[], rfl, rfl⟩
  | cons v rest ih =>
    intro h
    obtain ⟨o, rfl⟩ := h v (by simp)
    obtain ⟨ms, hms, hlen⟩ := ih (fun w hw => h w (by simp [hw]))
    refine ⟨coercePlayer o :: ms, ?_, by simp [hlen]⟩
    rw [List.mapM_cons, hms]
    rfl

/-- Claim C9 (amended): `normalize_player_name` accepts both response
shapes — a non-empty list of mentions under `"players"` (preferred) and a
single legacy mention object (any other dict) — coercing both into one list
of mention records; the coerced confidence always lies in the enum and an
out-of-enum confidence is replaced by `"low"`; a non-dict response is fatal.
However a well-formed response whose `"players"` list is empty does NOT
yield zero mention records: it falls through to the legacy single-mention
path and yields exactly one (all-null, low-confidence) record. -/
theorem normalize_player_name_spec :
    (∀ fields ps, jsonGet fields "players".data = some (Json.arr ps) → ps ≠ [] →
      (∀ v ∈ ps, ∃ o, v = Json.obj o) →
      ∃ ms, normalize_player_name_shape (Json.obj fields) = .ok ms ∧
        ms.length = ps.length) ∧
    (∀ fields,
      (∀ ps, jsonGet fields "players".data ≠ some (Json.arr ps)) →
      normalize_player_name_shape (Json.obj fields) = .ok [coercePlayer fields]) ∧
    (∀ fields ps, jsonGet fields "players".data = some (Json.arr ps) → ps = [] →
      normalize_player_name_shape (Json.obj fields) = .ok [coercePlayer fields]) ∧
    (∀ fields, (coercePlayer fields).confidence = "high".data ∨
      (coercePlayer fields).confidence = "medium".data ∨
      (coercePlayer fields).confidence = "low".data) ∧
    (∀ fields c, jsonGet fields "confidence".data = some (Json.str c) →
      ¬ (c = "high".data ∨ c = "medium".data ∨ c = "low".data) →
      (coercePlayer fields).confidence = "low".data) ∧
    (∀ v, (∀ fields, v ≠ Json.obj fields) →
      ∃ e, normalize_player_name_shape v = .error e) := by
  refine ⟨?_, ?_, ?_, ?_, ?_, ?_⟩
  · intro fields ps hget hne hobj
    obtain ⟨ms, hms, hlen⟩ := mapM_coerce_length ps hobj
    refine ⟨ms, ?_, hlen⟩
    simp only [normalize_player_name_shape, hget]
    rw [if_neg (by simpa using hne)]
    exact hms
  · intro fields h
    cases hget : jsonGet fields "players".data with
    | none => simp [normalize_player_name_shape, hget]
    | some v =>
      cases v with
      | arr ps => exact absurd hget (h ps)
      | null => simp [normalize_player_name_shape, hget]
      | bool b => simp [normalize_player_name_shape, hget]
      | num n => simp [normalize_player_name_shape, hget]
      | str s => simp [normalize_player_name_shape, hget]
      | obj o => simp [normalize_player_name_shape, hget]
  · intro fields ps hget hps
    subst hps
    simp [normalize_player_name_shape, hget]
  · intro fields
    simp only [coercePlayer]
    cases hc : jsonGet fields "confidence".data with
    | none => right; right; rfl
    | some v =>
      cases v with
      | str c =>
        show (if c = "high".data ∨ c = "medium".data ∨ c = "low".data then c
            else "low".data) = "high".data ∨
          (if c = "high".data ∨ c = "medium".data ∨ c = "low".data then c
            else "low".data) = "medium".data ∨
          (if c = "high".data ∨ c = "medium".data ∨ c = "low".data then c
            else "low".data) = "low".data
        by_cases hin : c = "high".data ∨ c = "medium".data ∨ c = "low".data
        · rw [if_pos hin]; exact hin
        · rw [if_neg hin]; right; right; rfl
      | null => right; right; rfl
      | bool b => right; right; rfl
      | num n => right; right; rfl
      | arr a => right; right; rfl
      | obj o => right; right; rfl
  · intro fields c hc hnin
    simp only [coercePlayer, hc]
    show (if c = "high".data ∨ c = "medium".data ∨ c = "low".data then c
      else "low".data) = "low".data
    rw [if_neg hnin]
  · intro v h
    cases v with
    | obj fields => exact absurd rfl (h fields)
    | null => exact ⟨_, rfl⟩
    | bool b => exact ⟨_, rfl⟩
    | num n => exact ⟨_, rfl⟩
    | str s => exact ⟨_, rfl⟩
    | arr a => exact ⟨_, rfl⟩

/-- Claim C9 (counterexample): the decoded response with an empty
`"players"` list yields exactly one all-null low-confidence mention record
— not zero records as the claim states. -/
theorem normalize_empty_players_one_mention :
    normalize_player_name_shape (Json.obj [("players".data, Json.arr [])]) =
      .ok [⟨none, none, "low".data, []⟩] ∧
    (normalize_player_name_shape (Json.obj [("players".data, Json.arr [])])).map
      List.length = .ok 1 :=
  ⟨rfl, rfl⟩

/-- Claim C9 (witness): the preferred-shape conjunct at a concrete
one-mention response. -/
theorem normalize_player_name_spec_witness :
    ∃ ms, normalize_player_name_shape
      (Json.obj [("players".data, Json.arr [Json.obj []])]) = .ok ms ∧
      ms.length = [Json.obj ([] : List (List Char × Json))].length :=
  normalize_player_name_spec.1 [("players".data, Json.arr [Json.obj []])]
    [Json.obj []] rfl (by simp) (fun v hv => ⟨[], by simpa using hv⟩)

/-- Claim C10: `insert_embeddings_into_db` is atomic per call — with the
assertions satisfied, all rows for the URL are written by one committed
transaction (the single batched upsert), while any exception during
insertion rolls the transaction back, leaves the store exactly as before,
and is re-raised; cursor and connection are closed on every exit path. -/
theorem insert_embeddings_atomic (store : List WebChunkRow) (url : List Char)
    (chunks : List (List Char)) (embeddings : List (List Int)) (fault : Bool)
    (hdim : embeddings.all (fun e => e.length = CHUNK_DIM) = true)
    (hlen : chunks.length = embeddings.length) :
    (fault = true →
      insert_embeddings_into_db store url chunks embeddings fault =
        (.error "Error inserting embeddings into DB".data, store, true)) ∧
    (fault = false →
      insert_embeddings_into_db store url chunks embeddings fault =
        (.ok (), upsertAll store (buildRecords url chunks embeddings), true)) := by
  unfold insert_embeddings_into_db
  rw [if_neg (by simp [hdim]), if_neg (by simp [hlen])]
  constructor
  · intro h; rw [h]; simp
  · intro h; rw [h]; simp

set_option maxRecDepth 4000 in
/-- Claim C10 (witness): the atomicity theorem at a concrete faulting call
and a concrete committing call. -/
theorem insert_embeddings_atomic_witness :
    insert_embeddings_into_db [] "u".data ["c".data] [List.replicate 384 0] true =
      (.error "Error inserting embeddings into DB".data, [], true) ∧
    insert_embeddings_into_db [] "u".data ["c".data] [List.replicate 384 0] false =
      (.ok (), upsertAll [] (buildRecords "u".data ["c".data] [List.replicate 384 0]),
        true) :=
  ⟨(insert_embeddings_atomic [] "u".data ["c".data] [List.replicate 384 0] true
      (by simp [CHUNK_DIM]) rfl).1 rfl,
   (insert_embeddings_atomic [] "u".data ["c".data] [List.replicate 384 0] false
      (by simp [CHUNK_DIM]) rfl).2 rfl⟩

/-- The retrieval result always equals the first `k` rows of the
distance-sorted full scan, whether the primary ordered query behaved or hit
the documented zero-row bug. -/
theorem retrieve_eq_take_sorted (encode : List Char → List Int)
    (d : List Int → List Int → Int) (q0 : List Char) (qs : List (List Char))
    (k : Nat) (store : List WebChunkRow) (primaryRows : List RankedRow)
    (_hk : 1 ≤ k)
    (hp : primaryRows = (sortByDistance (rankedOf d (encode q0) store)).take k ∨
      primaryRows = []) :
    retrieve_top_k_chunks encode d (q0 :: qs) k store primaryRows =
      (sortByDistance (rankedOf d (encode q0) store)).take k := by
  by_cases hstore : store.length = 0
  · have hsn : store = [] := List.length_eq_zero.mp hstore
    subst hsn
    simp [retrieve_top_k_chunks, rankedOf, sortByDistance, List.insertionSort]
  · rcases hp with hp | hp
    · by_cases hpe : primaryRows.length = 0
      · simp [retrieve_top_k_chunks, hstore, hpe]
      · simp only [retrieve_top_k_chunks, hstore, hpe, if_false]
        exact hp
    · subst hp
      simp [retrieve_top_k_chunks, hstore]

/-- Claim C5: for a store of `M` chunks and `k ≥ 1`, `retrieve_top_k_chunks`
returns exactly `min k M` ranked rows, sorted by non-decreasing distance to
the first refined query's embedding, and those rows are `k` smallest by
distance: the remaining stored rows all have distance at least every
returned one.  This holds whether the primary ordered-`LIMIT` query returned
the correct rows or — the documented pooled-connection bug — zero rows, in
which case the unordered full scan plus the Python-side sort supplies them. -/
theorem retrieve_top_k_spec (encode : List Char → List Int)
    (d : List Int → List Int → Int) (q0 : List Char) (qs : List (List Char))
    (k : Nat) (store : List WebChunkRow) (primaryRows res : List RankedRow)
    (hk : 1 ≤ k)
    (hp : primaryRows = (sortByDistance (rankedOf d (encode q0) store)).take k ∨
      primaryRows = [])
    (hres : res = retrieve_top_k_chunks encode d (q0 :: qs) k store primaryRows) :
    res.length = min k store.length ∧
    List.Pairwise distLE res ∧
    (∃ rest, (res ++ rest).Perm (rankedOf d (encode q0) store) ∧
      ∀ x ∈ res, ∀ y ∈ rest, x.distance ≤ y.distance) := by
  have hmain := retrieve_eq_take_sorted encode d q0 qs k store primaryRows hk hp
  rw [hmain] at hres
  subst hres
  have hperm : (sortByDistance (rankedOf d (encode q0) store)).Perm
      (rankedOf d (encode q0) store) :=
    List.perm_insertionSort distLE _
  have hsorted : List.Pairwise distLE (sortByDistance (rankedOf d (encode q0) store)) :=
    List.sorted_insertionSort distLE _
  refine ⟨?_, ?_, ?_⟩
  · have hlen2 : (sortByDistance (rankedOf d (encode q0) store)).length =
        store.length := by
      rw [hperm.length_eq]
      simp [rankedOf]
    rw [List.length_take, hlen2]
  · have hsub : List.Sublist ((sortByDistance (rankedOf d (encode q0) store)).take k)
        (sortByDistance (rankedOf d (encode q0) store)) :=
      List.take_sublist k (sortByDistance (rankedOf d (encode q0) store))
    exact List.Pairwise.sublist hsub hsorted
  · refine ⟨(sortByDistance (rankedOf d (encode q0) store)).drop k, ?_, ?_⟩
    · rw [List.take_append_drop]
      exact hperm
    · have happ : List.Pairwise distLE
          ((sortByDistance (rankedOf d (encode q0) store)).take k ++
            (sortByDistance (rankedOf d (encode q0) store)).drop k) := by
        rw [List.take_append_drop]
        exact hsorted
      exact (List.pairwise_append.mp happ).2.2

/-- A concrete two-row store for the C5 witness. -/
def storeW : List WebChunkRow :=
  [⟨"u1".data, 0, "far".data, [5]⟩, ⟨"u2".data, 0, "near".data, [3]⟩]

/-- Claim C5 (witness): the top-k theorem exercised on the fallback path (a
zero-row primary result over a non-empty two-row store, k = 1). -/
theorem retrieve_top_k_spec_witness :
    (retrieve_top_k_chunks (fun _ => [0]) (fun emb _ => emb.headD 0)
        ("q".data :: []) 1 storeW []).length = min 1 storeW.length ∧
    List.Pairwise distLE (retrieve_top_k_chunks (fun _ => [0])
      (fun emb _ => emb.headD 0) ("q".data :: []) 1 storeW []) ∧
    (∃ rest, ((retrieve_top_k_chunks (fun _ => [0]) (fun emb _ => emb.headD 0)
        ("q".data :: []) 1 storeW []) ++ rest).Perm
        (rankedOf (fun emb _ => emb.headD 0) [0] storeW) ∧
      ∀ x ∈ retrieve_top_k_chunks (fun _ => [0]) (fun emb _ => emb.headD 0)
        ("q".data :: []) 1 storeW [], ∀ y ∈ rest, x.distance ≤ y.distance) :=
  retrieve_top_k_spec (fun _ => [0]) (fun emb _ => emb.headD 0) "q".data []
    1 storeW [] _ (by decide) (Or.inr rfl) rfl
